import Mathlib

/-!
Shallow embedding of the core of the `evolrecall` repository
(continuous screen-capture and semantic-recall pipeline) together with
proofs checking the natural-language specification against the code.

Conventions of the embedding:
* Python strings are modelled as `List Char`, restricted to the ASCII
  fragment of Python's character predicates (`\w`, `str.isalpha`,
  `str.isdigit`, `str.split` whitespace).
* Byte blobs (SQLite `BLOB`) are `List Nat`, one `Nat` per byte.
* `numpy` float vectors are modelled at the bit level: a float32 value is
  its 4-byte little-endian chunk and a float64 value its 8-byte chunk, so
  `tobytes` / `frombuffer` round-trips are exact without IEEE semantics.
* External services (Ollama vision model, embedding model, the
  filesystem of screenshot assets) are passed in as explicit parameters.
* Real arithmetic of the structural-similarity metric is carried out
  over `ℚ` instead of IEEE doubles.
-/

namespace EvolRecall

/-! ## Python character and string primitives (ASCII fragment) -/

/-- Python regex `\w` (word character), ASCII fragment: `[A-Za-z0-9_]`. -/
def isWordChar (c : Char) : Bool :=
  c.isAlpha || c.isDigit || c = '_'

/-- Python whitespace (`\s` and the default of `str.split`):
space, tab, newline, carriage return, vertical tab, form feed. -/
def isSpaceChar (c : Char) : Bool :=
  c = ' ' || c = '\t' || c = '\n' || c = '\r' || c = '\x0b' || c = '\x0c'

/-- Characters kept by the first `re.sub` of `clean_ocr_text`
(`database.py:110`): word characters, whitespace, and the conservative
punctuation set `- . , ! ? ; : ( ) " ' /`. -/
def keepChar (c : Char) : Bool :=
  isWordChar c || isSpaceChar c ||
    c = '-' || c = '.' || c = ',' || c = '!' || c = '?' || c = ';' ||
    c = ':' || c = '(' || c = ')' || c = '"' || c = '\'' || c = '/'

/-- `re.sub(r'[^\w\s\-.,!?;:()"\x27/]', ' ', text)`: every character
outside the conservative set becomes a space (`database.py:110`). -/
def stripArtifacts (s : List Char) : List Char :=
  s.map (fun c => if keepChar c then c else ' ')

/-- Helper for `collapseSpaces`; the flag records whether the previous
character was whitespace (i.e. we are inside a run already emitted). -/
def collapseSpacesAux : Bool → List Char → List Char
  | _, [] => []
  | prevSpace, c :: rest =>
    if isSpaceChar c then
      if prevSpace then collapseSpacesAux true rest
      else ' ' :: collapseSpacesAux true rest
    else c :: collapseSpacesAux false rest

/-- `re.sub(r'\s+', ' ', text)`: each maximal whitespace run becomes a
single space (`database.py:111`). -/
def collapseSpaces (s : List Char) : List Char :=
  collapseSpacesAux false s

/-- Replacement for one maximal run of `k` copies of `c`: the regex
`(\w)\1{3,}` matches only word characters and only runs of length ≥ 4,
and `re.sub(..., r'\1\1', ...)` rewrites the whole run to two copies
(`database.py:112`). -/
def runOut (c : Char) (k : Nat) : List Char :=
  if isWordChar c && decide (4 ≤ k) then [c, c] else List.replicate k c

/-- Helper for `collapseRuns`: `c` is the character of the current run
and `k ≥ 1` how many copies of it have been read. -/
def collapseRunsAux (c : Char) (k : Nat) : List Char → List Char
  | [] => runOut c k
  | d :: rest =>
    if d = c then collapseRunsAux c (k + 1) rest
    else runOut c k ++ collapseRunsAux d 1 rest

/-- `re.sub(r'(\w)\1{3,}', r'\1\1', text)` (`database.py:112`). -/
def collapseRuns : List Char → List Char
  | [] => []
  | c :: rest => collapseRunsAux c 1 rest

/-- Helper for `splitWs`; `cur` is the reversed current word. -/
def splitWsAux (cur : List Char) : List Char → List (List Char)
  | [] => if cur.isEmpty then [] else [cur.reverse]
  | c :: rest =>
    if isSpaceChar c then
      if cur.isEmpty then splitWsAux [] rest
      else cur.reverse :: splitWsAux [] rest
    else splitWsAux (c :: cur) rest

/-- Python `str.split()` with no argument: split on whitespace runs,
discarding empty pieces (`database.py:115`). -/
def splitWs (s : List Char) : List (List Char) :=
  splitWsAux [] s

/-- Python `str.isdigit()` on the ASCII fragment: nonempty and all
characters are digits. -/
def pyIsDigit (w : List Char) : Bool :=
  !w.isEmpty && w.all Char.isDigit

/-- The word filter of `clean_ocr_text` (`database.py:118-125`): keep a
token iff its length is in `[2, 25]`, it is not a purely numeric token
longer than 10 digits, and it contains at least one alphabetic
character. -/
def keepWord (w : List Char) : Bool :=
  !(decide (w.length < 2) || decide (25 < w.length)) &&
  !(pyIsDigit w && decide (10 < w.length)) &&
  w.any Char.isAlpha

/-- Python `str.strip()` restricted to the whitespace set above. -/
def stripWs (s : List Char) : List Char :=
  ((s.dropWhile isSpaceChar).reverse.dropWhile isSpaceChar).reverse

/-- The cleaning pipeline of `clean_ocr_text` before the final length
truncation: substitutions, tokenisation, token filter, `' '.join`,
`strip()` (`database.py:110-127`). -/
def cleanCore (raw : List Char) : List Char :=
  stripWs (List.intercalate [' ']
    ((splitWs (collapseRuns (collapseSpaces (stripArtifacts raw)))).filter keepWord))

/-- `clean_ocr_text` of `database.py:104-128` (live-capture version):
empty input short-circuits to the empty string, the cleaned result is
truncated to 2000 characters. -/
def clean_ocr_text (raw : List Char) : List Char :=
  if raw.isEmpty then [] else (cleanCore raw).take 2000

/-- `SimpleOptimizedProcessor.clean_ocr_text` of
`recording_controller.py:130-154` (bulk-reprocessing version): the same
pipeline with a 1000-character truncation. -/
def clean_ocr_text_bulk (raw : List Char) : List Char :=
  if raw.isEmpty then [] else (cleanCore raw).take 1000

example : clean_ocr_text ("aaaa!!1111111111111 ok go".toList) = "aa!!11 ok go".toList := by
  decide

/-! ## Change detector (`screenshot.py:22-50`), arithmetic over `ℚ` -/

/-- One RGB pixel of a raster frame. -/
structure Pixel where
  r : ℚ
  g : ℚ
  b : ℚ
deriving DecidableEq

/-- A raster frame, flattened: `np.mean`/`np.var` of
`mean_structured_similarity_index` reduce over all pixels, so the 2-D
layout is irrelevant. -/
def Frame : Type := List Pixel

/-- `np.mean` over a field of rationals (division by zero yields 0 for
the empty frame, where numpy would produce NaN). -/
def listMean (l : List ℚ) : ℚ := l.sum / l.length

/-- The fixed-weight RGB→gray transform `rgb2gray`
(`screenshot.py:29-31`): `0.2989 R + 0.5870 G + 0.1140 B`. -/
def rgb2gray (p : Pixel) : ℚ :=
  2989 / 10000 * p.r + 5870 / 10000 * p.g + 1140 / 10000 * p.b

/-- The grayscale field of a frame. -/
def grayField (img : Frame) : List ℚ := img.map rgb2gray

/-- `np.var`: mean of squared deviations from the mean. -/
def listVar (l : List ℚ) : ℚ :=
  listMean (l.map (fun x => (x - listMean l) ^ 2))

/-- `mean_structured_similarity_index` (`screenshot.py:22-43`):
`K1 = 0.01`, `K2 = 0.03`, `C1 = (K1*L)^2`, `C2 = (K2*L)^2`, default
`L = 255`. -/
def mean_structured_similarity_index (img1 img2 : Frame) (L : ℚ := 255) : ℚ :=
  let C1 := (1 / 100 * L) ^ 2
  let C2 := (3 / 100 * L) ^ 2
  let g1 := grayField img1
  let g2 := grayField img2
  let mu1 := listMean g1
  let mu2 := listMean g2
  let sigma1Sq := listVar g1
  let sigma2Sq := listVar g2
  let sigma12 := listMean (List.zipWith (fun a b => (a - mu1) * (b - mu2)) g1 g2)
  ((2 * mu1 * mu2 + C1) * (2 * sigma12 + C2)) /
    ((mu1 ^ 2 + mu2 ^ 2 + C1) * (sigma1Sq + sigma2Sq + C2))

/-- `is_similar` (`screenshot.py:45-50`): true iff the similarity score
meets or exceeds the threshold, default `0.9`. -/
def is_similar (img1 img2 : Frame) (similarity_threshold : ℚ := 9 / 10) : Bool :=
  decide (similarity_threshold ≤ mean_structured_similarity_index img1 img2)

/-! ## Byte blobs and numpy (de)serialisation -/

/-- Little-endian byte chunk of one 32-bit float bit pattern, as written
by `.astype(np.float32).tobytes()` (`database.py:254`). A float32 value
is identified with its 4-byte chunk. -/
def f32Chunk (x : Nat) : List Nat :=
  [x % 256, x / 256 % 256, x / 256 ^ 2 % 256, x / 256 ^ 3 % 256]

/-- `final_embedding.astype(np.float32).tobytes()`: 4 bytes per vector
component (`database.py:254`). -/
def serializeF32 (v : List Nat) : List Nat :=
  (v.map f32Chunk).flatten

/-- Fuel-driven chunking helper (structural recursion so the kernel can
evaluate it); splits a byte list into consecutive groups of `w` bytes. -/
def chunksOfAux : Nat → Nat → List Nat → List (List Nat)
  | 0, _, _ => []
  | _ + 1, _, [] => []
  | fuel + 1, w, l => l.take w :: chunksOfAux fuel w (l.drop w)

/-- Split a byte list into groups of `w` bytes (callers guarantee
`w ∣ length`; the fuel `length + 1` is always sufficient for `w > 0`). -/
def chunksOf (w : Nat) (l : List Nat) : List (List Nat) :=
  chunksOfAux (l.length + 1) w l

/-- `np.frombuffer(buf, dtype)` with an element width of `w` bytes:
raises `ValueError` (`none`) unless the buffer size is a multiple of
`w`, otherwise reinterprets the buffer as `length / w` elements, each
identified with its `w`-byte chunk. -/
def frombuffer (w : Nat) (l : List Nat) : Option (List (List Nat)) :=
  if l.length % w = 0 then some (chunksOf w l) else none

/-! ## Storage layer (`database.py`) -/

/-- One row of the `entries` table
(`id, app, title, text, timestamp UNIQUE, embedding BLOB`). -/
structure DbRow where
  id : Nat
  app : List Char
  title : List Char
  text : List Char
  timestamp : Nat
  embedding : List Nat
deriving DecidableEq

/-- The `entries` table plus the `AUTOINCREMENT` counter. -/
structure EntriesTable where
  rows : List DbRow
  nextId : Nat
deriving DecidableEq

/-- Does the table already hold a row with this timestamp? -/
def hasTimestamp (t : EntriesTable) (ts : Nat) : Bool :=
  t.rows.any (fun row => row.timestamp = ts)

/-- `INSERT INTO entries ... ON CONFLICT(timestamp) DO NOTHING`
(`database.py:259-266`): on a timestamp conflict nothing changes and
`rowcount = 0` makes the caller return `None`; otherwise the new row is
appended, and `lastrowid` (the fresh autoincrement id) is returned. -/
def sqliteInsertOrIgnore (t : EntriesTable) (text : List Char) (ts : Nat)
    (blob : List Nat) (app title : List Char) : EntriesTable × Option Nat :=
  if hasTimestamp t ts then (t, none)
  else
    ({ rows := t.rows ++ [⟨t.nextId, app, title, text, ts, blob⟩],
       nextId := t.nextId + 1 }, some t.nextId)

/-- The external world as seen by `insert_entry`: the outcome of the
`get_vision_description(timestamp)` call (`None`, or the stripped
response text), and the external embedding model `get_embedding`, whose
output vector is taken as float32 bit patterns. -/
structure InsertEnv where
  vision : Option (List Char)
  getEmbedding : List Char → List Nat

/-- Python truthiness of `vision_description` (`database.py:238`):
`None` and the empty string are falsy. -/
def visionTruthy : Option (List Char) → Bool
  | none => false
  | some d => !d.isEmpty

/-- The `final_text` chosen by `insert_entry` (`database.py:236-245`):
the vision description when truthy, else the cleaned OCR text. -/
def insertFinalText (env : InsertEnv) (raw : List Char) : List Char :=
  match env.vision with
  | some d => if d.isEmpty then clean_ocr_text raw else d
  | none => clean_ocr_text raw

/-- The `final_embedding` chosen by `insert_entry`
(`database.py:247-251`): re-derived from the final text when that text
is nonempty, otherwise the caller's original embedding. -/
def insertStoredEmbedding (env : InsertEnv) (raw : List Char)
    (embedding : List Nat) : List Nat :=
  if (insertFinalText env raw).isEmpty then embedding
  else env.getEmbedding (insertFinalText env raw)

/-- `insert_entry` (`database.py:226-269`): choose the final text,
re-embed it when nonempty (else keep the caller's embedding), serialise
as float32 bytes and insert-or-ignore keyed on the timestamp. -/
def insert_entry (env : InsertEnv) (raw : List Char) (ts : Nat)
    (embedding : List Nat) (app title : List Char) (t : EntriesTable) :
    EntriesTable × Option Nat :=
  sqliteInsertOrIgnore t (insertFinalText env raw) ts
    (serializeF32 (insertStoredEmbedding env raw embedding)) app title

/-- An in-memory entry as produced by `get_all_entries`
(`database.py:51-81`): the blob decoded as a float32 vector, each
component identified with its 4-byte chunk. -/
structure MemEntry where
  id : Nat
  app : List Char
  title : List Char
  text : List Char
  timestamp : Nat
  emb : List (List Nat)
deriving DecidableEq

/-- `np.frombuffer(row["embedding"], dtype=np.float32)`
(`database.py:68`) packaged into an `Entry` namedtuple; `none` when the
blob length is not a multiple of 4 (numpy raises `ValueError`). -/
def decodeRow (row : DbRow) : Option MemEntry :=
  (frombuffer 4 row.embedding).map
    (fun v => ⟨row.id, row.app, row.title, row.text, row.timestamp, v⟩)

/-- Descending-timestamp order on table rows. -/
def rowTsDesc (a b : DbRow) : Prop := b.timestamp ≤ a.timestamp

instance : DecidableRel rowTsDesc := fun a b => by
  unfold rowTsDesc; infer_instance

instance : IsTotal DbRow rowTsDesc where
  total a b := Nat.le_total b.timestamp a.timestamp

instance : IsTrans DbRow rowTsDesc where
  trans _ _ _ hxy hyz := Nat.le_trans hyz hxy

/-- `ORDER BY timestamp DESC` (`database.py:64`). -/
def sortRowsDesc (rows : List DbRow) : List DbRow :=
  List.insertionSort rowTsDesc rows

/-- Outcome of `get_all_entries`: either the list of decoded entries, or
an uncaught exception escaping the function (only `sqlite3.Error` is
caught there). -/
inductive ReadResult where
  | raised : ReadResult
  | ok : List MemEntry → ReadResult
deriving DecidableEq

/-- `get_all_entries` (`database.py:51-81`). `dbRead = none` models a
`sqlite3.Error` from connect/execute/fetch: it is caught and the (still
empty) accumulator is returned. On a successful read every fetched row
is decoded with `np.frombuffer(..., np.float32)`; a decode failure is a
`ValueError`, which is *not* `sqlite3.Error` and escapes. -/
def get_all_entries (dbRead : Option (List DbRow)) : ReadResult :=
  match dbRead with
  | none => .ok []
  | some rows =>
    match (sortRowsDesc rows).mapM decodeRow with
    | none => .raised
    | some es => .ok es

/-! ## Semantic search route (`app.py:3377-3447`) -/

/-- `np.frombuffer(entry.embedding, dtype=np.float64)` (`app.py:3410`):
the float32 array's underlying buffer (its concatenated 4-byte chunks)
reinterpreted as float64 elements (8-byte chunks). -/
def decode64 (e : MemEntry) : Option (List (List Nat)) :=
  frombuffer 8 e.emb.flatten

/-- The dimension filter of the search route (`app.py:3404-3416`): a
decode failure is caught and the entry skipped; a decoded vector is kept
iff its length equals the query embedding's length. -/
def survivors (qlen : Nat) (entries : List MemEntry) :
    List (MemEntry × List (List Nat)) :=
  entries.filterMap (fun e =>
    (decode64 e).bind (fun v => if v.length = qlen then some (e, v) else none))

/-- The sort order of `scored_entries.sort(key=lambda x: (x[1],
x[0].timestamp), reverse=True)` (`app.py:3438`): descending
lexicographically in (similarity, timestamp). -/
def scoreRel (x y : MemEntry × ℚ) : Prop :=
  y.2 < x.2 ∨ (y.2 = x.2 ∧ y.1.timestamp ≤ x.1.timestamp)

instance : DecidableRel scoreRel := fun x y => by
  unfold scoreRel; infer_instance

instance : IsTotal (MemEntry × ℚ) scoreRel where
  total x y := by
    unfold scoreRel
    rcases lt_trichotomy x.2 y.2 with h | h | h
    · exact Or.inr (Or.inl h)
    · rcases Nat.le_total y.1.timestamp x.1.timestamp with ht | ht
      · exact Or.inl (Or.inr ⟨h.symm, ht⟩)
      · exact Or.inr (Or.inr ⟨h, ht⟩)
    · exact Or.inl (Or.inl h)

instance : IsTrans (MemEntry × ℚ) scoreRel where
  trans x y z hxy hyz := by
    unfold scoreRel at *
    rcases hxy with h1 | ⟨h1, h1t⟩ <;> rcases hyz with h2 | ⟨h2, h2t⟩
    · exact Or.inl (h2.trans h1)
    · exact Or.inl (h2 ▸ h1)
    · exact Or.inl (h1 ▸ h2)
    · exact Or.inr ⟨h2.trans h1, h2t.trans h1t⟩

/-- The sorted scored list of the search route (`app.py:3437-3438`). -/
def sortScored (scored : List (MemEntry × ℚ)) : List (MemEntry × ℚ) :=
  List.insertionSort scoreRel scored

/-- Result of the `/search` route: the error page for a failing query
embedding, the "No matching entries found" page, or a results page
(paged entries plus `total_pages`). -/
inductive SearchOutcome where
  | queryError : SearchOutcome
  | noMatches : SearchOutcome
  | results : List MemEntry → Nat → SearchOutcome
deriving DecidableEq

/-- The `/search` route (`app.py:3377-3447`) from the point where the
entries are loaded. `queryEmbLen = none` models `get_embedding(q)`
raising (rendered as the error page); `simF` closes over the query
embedding and models `cosine_similarity(query_embedding, emb)`
(`app.py:3434`). Page size is fixed at 10, pages are 1-based. -/
def search (simF : List (List Nat) → ℚ) (queryEmbLen : Option Nat)
    (page : Nat) (entries : List MemEntry) : SearchOutcome :=
  match queryEmbLen with
  | none => .queryError
  | some qlen =>
    let surv := survivors qlen entries
    if surv.isEmpty then .noMatches
    else
      let sorted := (sortScored (surv.map (fun p => (p.1, simF p.2)))).map Prod.fst
      let pageSize := 10
      .results ((sorted.drop ((page - 1) * pageSize)).take pageSize)
        ((sorted.length + pageSize - 1) / pageSize)

/-! ## Batch reprocessing engine (`recording_controller.py`) -/

/-- One row as fetched by `get_entries_to_process`
(`SELECT id, text, timestamp, app, title`). -/
structure RepRow where
  id : Nat
  text : List Char
  timestamp : Nat
  app : List Char
  title : List Char
deriving DecidableEq

/-- Does `needle` occur at the start of `hay`? -/
def listStartsWith : List Char → List Char → Bool
  | [], _ => true
  | _ :: _, [] => false
  | a :: as, b :: bs => a = b && listStartsWith as bs

/-- Python `needle in hay` on strings: substring containment. -/
def hasSub (needle : List Char) : List Char → Bool
  | [] => needle.isEmpty
  | b :: bs => listStartsWith needle (b :: bs) || hasSub needle bs

/-- The refinement indicator phrases of `is_already_refined`
(`recording_controller.py:162-167`). -/
def refinedIndicators : List (List Char) :=
  ["enhanced description:".toList, "activity/task:".toList,
   "the user is working".toList, "**activity".toList]

/-- `SimpleOptimizedProcessor.is_already_refined`
(`recording_controller.py:156-169`): false on empty text, otherwise true
iff the lowercased text contains one of the indicator phrases. -/
def is_already_refined (text : List Char) : Bool :=
  if text.isEmpty then false
  else refinedIndicators.any (fun ind => hasSub ind (text.map Char.toLower))

/-- `ORDER BY timestamp DESC` of `get_entries_to_process`
(`recording_controller.py:365`). -/
def sortRepRowsDesc (rows : List RepRow) : List RepRow :=
  List.insertionSort (fun a b => b.timestamp ≤ a.timestamp) rows

/-- The filtering loop of `get_entries_to_process`
(`recording_controller.py:372-383`): rows already in the cache are
skipped; rows whose text already looks refined are skipped *and marked
processed in the cache*; the rest become candidates. Returns the
candidate list together with the updated in-memory cache. -/
def filterRepRows : List RepRow → List Nat → List RepRow × List Nat
  | [], cache => ([], cache)
  | row :: rest, cache =>
    if row.id ∈ cache then filterRepRows rest cache
    else if is_already_refined row.text then filterRepRows rest (row.id :: cache)
    else
      let (f, cache') := filterRepRows rest cache
      (row :: f, cache')

/-- `SimpleOptimizedProcessor.get_entries_to_process`
(`recording_controller.py:360-390`): with `force_reprocess` all rows are
returned and the cache untouched; otherwise the filtering loop runs. -/
def get_entries_to_process (force : Bool) (db : List RepRow)
    (cache : List Nat) : List RepRow × List Nat :=
  if force then (sortRepRowsDesc db, cache)
  else filterRepRows (sortRepRowsDesc db) cache

/-- Observable state of a dry run: the `entries` table (as reprocessor
rows), the in-memory `ProcessingCache` id set, and the persisted cache
file contents. -/
structure RepState where
  db : List RepRow
  cache : List Nat
  cacheFile : List Nat
deriving DecidableEq

/-- `SimpleOptimizedProcessor.run_processing` with `dry_run=True`
(`recording_controller.py:392-484`), restricted to its storage/cache
effects.  `update_database_batch(results, dry_run=True)` returns before
touching either the database or the cache (`recording_controller.py:
321-324`), so the per-entry worker results cannot influence the state
and need not be modelled.  The remaining effects of a dry run are:
an unreachable Ollama server returns before anything else
(`recording_controller.py:398-406`); candidate filtering may mark
"already refined" ids in the in-memory cache; an empty candidate list
returns *before* the final `save_cache` (`recording_controller.py:
413-415`); otherwise the run ends with `save_cache`, rewriting the cache
file with the in-memory id set (`recording_controller.py:484`). -/
def run_processing_dry (ollamaOk : Bool) (limit : Option Nat)
    (force : Bool) (s : RepState) : RepState :=
  if !ollamaOk then s
  else
    let (entries, cache') := get_entries_to_process force s.db s.cache
    let entries := match limit with
      | some k => entries.take k
      | none => entries
    if entries.isEmpty then { s with cache := cache' }
    else { s with cache := cache', cacheFile := cache' }

/-! ## Recording controller

The module `openrecall.recording_controller` imported by `app.py:13` and
`screenshot.py:20` (the object exposing `pause`, `resume`, `stop`,
`wait_if_paused`, `get_state`) is not among the repository's source
files: the file of that name holds the batch reprocessor instead, and
only the controller's callers are present.  The controller itself is
therefore modelled from the spec. -/

/-- The three recording states of the controller's state machine. -/
inductive RCMode where
  | recording : RCMode
  | paused : RCMode
  | stopped : RCMode
deriving DecidableEq

/-- Modelled from the spec: the missing `RecordingController` state —
"process-wide state machine (Recording / Paused / Stopped) with
thread-safe signaling", holding the shared "go" signal and the separate
terminal stop signal (§4.1). -/
structure RCState where
  mode : RCMode
  go : Bool
  stopSignal : Bool
deriving DecidableEq

/-- Modelled from the spec: the missing `pause()` — "no-op if already
Paused; otherwise clears a shared 'go' signal so any thread waiting on
it blocks, and marks state Paused. Returns whether a transition
occurred" (§4.1). -/
def rcPause (s : RCState) : Bool × RCState :=
  if s.mode = .paused then (false, s)
  else (true, { s with go := false, mode := .paused })

/-- Modelled from the spec: the missing `resume()` — "no-op if not
Paused; otherwise sets the 'go' signal, unblocking waiters, and marks
state Recording" (§4.1). -/
def rcResume (s : RCState) : Bool × RCState :=
  if s.mode = .paused then (true, { s with go := true, mode := .recording })
  else (false, s)

/-- Modelled from the spec: the missing `stop()` — "sets a separate
terminal signal and also sets 'go' (so blocked waiters can observe the
terminal signal rather than hang) and marks state Stopped" (§4.1). -/
def rcStop (s : RCState) : RCState :=
  { s with stopSignal := true, go := true, mode := .stopped }

/-- Modelled from the spec: the value returned by the missing
`wait_if_paused` once its wait is released — "blocks the calling thread
until 'go' is signaled or timeout elapses; returns false immediately if
the terminal signal is set, true otherwise" (§4.1).  The blocking itself
is not modelled; this is the return value as a function of the state
observed on wake-up. -/
def rcWaitResult (s : RCState) : Bool :=
  if s.stopSignal then false else true

/-! ## Screenshot asset naming (`screenshot.py:127-132`,
`database.py:153-167`) -/

/-- Decimal digit character of `d % 10`. -/
def digitChar (d : Nat) : Char :=
  match d % 10 with
  | 0 => '0' | 1 => '1' | 2 => '2' | 3 => '3' | 4 => '4'
  | 5 => '5' | 6 => '6' | 7 => '7' | 8 => '8' | _ => '9'

/-- Fuel-driven decimal rendering (structural recursion). -/
def natDigitsAux : Nat → Nat → List Char
  | 0, _ => []
  | fuel + 1, n =>
    if n < 10 then [digitChar n]
    else natDigitsAux fuel (n / 10) ++ [digitChar (n % 10)]

/-- Python `f"{n}"` for a non-negative integer. -/
def natDigits (n : Nat) : List Char :=
  natDigitsAux (n + 1) n

/-- The filename the live capture loop saves each changed frame under:
`f"{timestamp}_{i}.webp"` (`screenshot.py:130`). -/
def liveScreenshotName (ts idx : Nat) : List Char :=
  natDigits ts ++ ['_'] ++ natDigits idx ++ ".webp".toList

/-- The candidate names probed by `get_vision_description`
(`database.py:158-164`): `f"{timestamp}.webp"` and the `jpg`, `png`,
`jpeg` fallbacks — all without a monitor-index suffix. -/
def visionProbeNames (ts : Nat) : List (List Char) :=
  [natDigits ts ++ ".webp".toList, natDigits ts ++ ".jpg".toList,
   natDigits ts ++ ".png".toList, natDigits ts ++ ".jpeg".toList]

/-- `get_vision_description` (`database.py:153-208`) as a function of
the screenshot directory contents `fs` and the outcome `svc` of the
Ollama call on a found file: when none of the probed names exists the
function returns `None` without calling the service. -/
def get_vision_description (fs : List (List Char)) (ts : Nat)
    (svc : Option (List Char)) : Option (List Char) :=
  if (visionProbeNames ts).any (fun nm => fs.contains nm) then svc else none

/-! ## Helper lemmas -/

/-- Number of rows carrying a given timestamp. -/
def tsCount (rows : List DbRow) (ts : Nat) : Nat :=
  rows.countP (fun r => decide (r.timestamp = ts))

theorem tsCount_eq_one {rows : List DbRow} {ts : Nat}
    (hu : rows.Pairwise (fun a b => a.timestamp ≠ b.timestamp))
    (hmem : ∃ r ∈ rows, r.timestamp = ts) :
    tsCount rows ts = 1 := by
  induction rows with
  | nil => simp at hmem
  | cons r rest ih =>
    rcases List.pairwise_cons.mp hu with ⟨hr, hrest⟩
    by_cases h : r.timestamp = ts
    · have hzero : tsCount rest ts = 0 := by
        rw [tsCount, List.countP_eq_zero]
        intro b hb
        simp only [decide_eq_true_eq]
        intro hbts
        exact hr b hb (h.trans hbts.symm)
      rw [tsCount, List.countP_cons]
      rw [tsCount] at hzero
      simp [h, hzero]
    · have hmem' : ∃ b ∈ rest, b.timestamp = ts := by
        rcases hmem with ⟨b, hb, hbts⟩
        rcases List.mem_cons.mp hb with rfl | hb'
        · exact absurd hbts h
        · exact ⟨b, hb', hbts⟩
      rw [tsCount, List.countP_cons]
      rw [tsCount] at ih
      simp [h, ih hrest hmem']

theorem hasTimestamp_iff {t : EntriesTable} {ts : Nat} :
    hasTimestamp t ts = true ↔ ∃ r ∈ t.rows, r.timestamp = ts := by
  simp [hasTimestamp, List.any_eq_true]

/-! ## C1: idempotent capture -/

/-- C1: inserting an entry is idempotent in the timestamp key.  For a
table with unique timestamps: if a row with the timestamp already
exists, `insert_entry` leaves the table unchanged (still exactly one row
with that timestamp) and returns `none`; for a fresh timestamp it
appends exactly one new row with that timestamp and returns its new row
id. -/
theorem insert_entry_idempotent (env : InsertEnv) (raw : List Char) (ts : Nat)
    (embedding : List Nat) (app title : List Char) (t : EntriesTable)
    (hu : t.rows.Pairwise (fun a b => a.timestamp ≠ b.timestamp)) :
    (hasTimestamp t ts = true →
      insert_entry env raw ts embedding app title t = (t, none) ∧
      tsCount (insert_entry env raw ts embedding app title t).1.rows ts = 1) ∧
    (hasTimestamp t ts = false →
      (∃ row : DbRow, row.timestamp = ts ∧
        (insert_entry env raw ts embedding app title t).1.rows = t.rows ++ [row]) ∧
      tsCount (insert_entry env raw ts embedding app title t).1.rows ts = 1 ∧
      (insert_entry env raw ts embedding app title t).2 = some t.nextId) := by
  constructor
  · intro hts
    have heq : insert_entry env raw ts embedding app title t = (t, none) := by
      rw [insert_entry, sqliteInsertOrIgnore, if_pos hts]
    refine ⟨heq, ?_⟩
    rw [heq]
    exact tsCount_eq_one hu (hasTimestamp_iff.mp hts)
  · intro hts
    have heq : (insert_entry env raw ts embedding app title t) =
        ({ rows := t.rows ++ [⟨t.nextId, app, title, insertFinalText env raw, ts,
            serializeF32 (insertStoredEmbedding env raw embedding)⟩],
           nextId := t.nextId + 1 }, some t.nextId) := by
      rw [insert_entry, sqliteInsertOrIgnore, if_neg (by simp [hts])]
    refine ⟨⟨_, rfl, by rw [heq]⟩, ?_, by rw [heq]⟩
    rw [heq]
    have hzero : tsCount t.rows ts = 0 := by
      rw [tsCount, List.countP_eq_zero]
      intro b hb
      simp only [decide_eq_true_eq]
      intro hbts
      exact absurd (hasTimestamp_iff.mpr ⟨b, hb, hbts⟩) (by simp [hts])
    rw [tsCount, List.countP_append]
    rw [tsCount] at hzero
    rw [hzero]
    simp [List.countP_cons]

/-- Concrete instance of C1: a table already holding timestamp 5 is
untouched and the call reports the no-op. -/
theorem insert_entry_idempotent_witness :
    insert_entry ⟨none, fun _ => []⟩ "hi there".toList 5 [0] "a".toList "b".toList
        ⟨[⟨1, [], [], [], 5, []⟩], 2⟩ =
      (⟨[⟨1, [], [], [], 5, []⟩], 2⟩, none) ∧
    tsCount (insert_entry ⟨none, fun _ => []⟩ "hi there".toList 5 [0] "a".toList
        "b".toList ⟨[⟨1, [], [], [], 5, []⟩], 2⟩).1.rows 5 = 1 :=
  (insert_entry_idempotent ⟨none, fun _ => []⟩ "hi there".toList 5 [0] "a".toList
    "b".toList ⟨[⟨1, [], [], [], 5, []⟩], 2⟩ (by decide)).1 (by decide)

/-! ## C8: change-detector threshold -/

theorem listMean_sq_nonneg (l : List ℚ) (m : ℚ) :
    0 ≤ listMean (l.map (fun x => (x - m) ^ 2)) := by
  rw [listMean]
  apply div_nonneg
  · apply List.sum_nonneg
    intro x hx
    rcases List.mem_map.mp hx with ⟨y, _, rfl⟩
    positivity
  · positivity

/-- C8: for every raster frame `x`,
`mean_structured_similarity_index(x, x) = 1.0`; `is_similar` classifies
a pair as similar exactly when the score is ≥ the threshold (default
0.9); hence two identical frames are always classified similar. -/
theorem mssim_self_eq_one_and_similar :
    (∀ (img1 img2 : Frame) (t : ℚ),
      is_similar img1 img2 t = true ↔
        t ≤ mean_structured_similarity_index img1 img2) ∧
    (∀ x : Frame, mean_structured_similarity_index x x = 1) ∧
    (∀ x : Frame, is_similar x x = true) := by
  have hself : ∀ x : Frame, mean_structured_similarity_index x x = 1 := by
    intro x
    rw [mean_structured_similarity_index]
    set g := grayField x with hg
    set mu := listMean g with hmu
    have h12 : List.zipWith (fun a b => (a - mu) * (b - mu)) g g =
        g.map (fun a => (a - mu) ^ 2) := by
      rw [List.zipWith_same]
      apply List.map_congr_left
      intro a _
      ring
    rw [h12]
    set sg := listMean (g.map (fun a => (a - mu) ^ 2)) with hsg
    have hvar : listVar g = sg := by rw [listVar]
    rw [hvar]
    have hsgnn : 0 ≤ sg := listMean_sq_nonneg g mu
    have hC1 : (0:ℚ) < (1 / 100 * 255) ^ 2 := by norm_num
    have hC2 : (0:ℚ) < (3 / 100 * 255) ^ 2 := by norm_num
    have hd1 : (0:ℚ) < mu ^ 2 + mu ^ 2 + (1 / 100 * 255) ^ 2 := by
      nlinarith [sq_nonneg mu]
    have hd2 : (0:ℚ) < sg + sg + (3 / 100 * 255) ^ 2 := by nlinarith
    have hnum : (2 * mu * mu + (1 / 100 * 255) ^ 2) *
        (2 * sg + (3 / 100 * 255) ^ 2) =
        (mu ^ 2 + mu ^ 2 + (1 / 100 * 255) ^ 2) *
        (sg + sg + (3 / 100 * 255) ^ 2) := by ring
    rw [hnum]
    exact div_self (mul_pos hd1 hd2).ne'
  refine ⟨?_, hself, ?_⟩
  · intro img1 img2 t
    rw [is_similar]
    simp
  · intro x
    rw [is_similar]
    simp [hself x]
    norm_num

/-! ## C9: recording controller pause/stop semantics -/

/-- C9: `pause()` is a no-op returning `false` when already Paused, and
otherwise clears the "go" signal, marks the state Paused and returns
`true`; after `stop()` every `wait_if_paused` caller gets `false`
regardless of pause state; a waiter blocked by `pause()` gets `true`
once `resume()` runs (terminal signal not set). -/
theorem recording_pause_stop_semantics :
    (∀ s : RCState, s.mode = .paused → rcPause s = (false, s)) ∧
    (∀ s : RCState, s.mode ≠ .paused →
      rcPause s = (true, { s with go := false, mode := .paused })) ∧
    (∀ s : RCState, rcWaitResult (rcStop s) = false) ∧
    (∀ s : RCState, s.mode = .paused → s.stopSignal = false →
      (rcResume s).2.go = true ∧ rcWaitResult (rcResume s).2 = true) := by
  refine ⟨?_, ?_, ?_, ?_⟩
  · intro s h
    rw [rcPause, if_pos h]
  · intro s h
    rw [rcPause, if_neg h]
  · intro s
    rw [rcStop, rcWaitResult]
    simp
  · intro s h hstop
    rw [rcResume, if_pos h, rcWaitResult]
    simp [hstop]

/-- Concrete instance of C9: pausing an already-paused controller is a
no-op returning `false`; resuming it sets "go" and a released waiter
returns `true`; after stop every waiter returns `false`. -/
theorem recording_pause_stop_semantics_witness :
    rcPause ⟨.paused, false, false⟩ = (false, ⟨.paused, false, false⟩) ∧
    (rcResume ⟨.paused, false, false⟩).2.go = true ∧
    rcWaitResult (rcResume ⟨.paused, false, false⟩).2 = true ∧
    rcWaitResult (rcStop ⟨.paused, false, false⟩) = false :=
  ⟨recording_pause_stop_semantics.1 ⟨.paused, false, false⟩ rfl,
   (recording_pause_stop_semantics.2.2.2 ⟨.paused, false, false⟩ rfl rfl).1,
   (recording_pause_stop_semantics.2.2.2 ⟨.paused, false, false⟩ rfl rfl).2,
   recording_pause_stop_semantics.2.2.1 ⟨.paused, false, false⟩⟩

/-! ## Lemmas on byte chunking -/

theorem chunksOfAux_flatten {w : Nat} (hw : 0 < w) :
    ∀ (fuel : Nat) (l : List Nat), l.length ≤ fuel →
      (chunksOfAux fuel w l).flatten = l := by
  intro fuel
  induction fuel with
  | zero =>
    intro l hl
    have : l = [] := List.eq_nil_of_length_eq_zero (Nat.le_zero.mp hl)
    subst this
    rfl
  | succ fuel ih =>
    intro l hl
    cases l with
    | nil => rfl
    | cons c rest =>
      show (c :: rest).take w ++ (chunksOfAux fuel w ((c :: rest).drop w)).flatten
        = c :: rest
      rw [ih]
      · exact List.take_append_drop w (c :: rest)
      · rw [List.length_drop]
        simp only [List.length_cons] at hl ⊢
        omega

theorem chunksOfAux_length {w : Nat} (hw : 0 < w) :
    ∀ (fuel : Nat) (l : List Nat), l.length ≤ fuel → w ∣ l.length →
      (chunksOfAux fuel w l).length = l.length / w := by
  intro fuel
  induction fuel with
  | zero =>
    intro l hl _
    have : l = [] := List.eq_nil_of_length_eq_zero (Nat.le_zero.mp hl)
    subst this
    simp [chunksOfAux]
  | succ fuel ih =>
    intro l hl hdvd
    cases l with
    | nil => simp [chunksOfAux]
    | cons c rest =>
      have hlen : 0 < (c :: rest).length := by simp
      have hwle : w ≤ (c :: rest).length := Nat.le_of_dvd hlen hdvd
      show ((c :: rest).take w :: chunksOfAux fuel w ((c :: rest).drop w)).length
        = (c :: rest).length / w
      rw [List.length_cons, ih]
      · rw [List.length_drop, Nat.div_eq_sub_div hw hwle]
      · rw [List.length_drop]
        simp only [List.length_cons] at hl ⊢
        omega
      · rw [List.length_drop]
        exact Nat.dvd_sub' hdvd dvd_rfl

theorem chunksOfAux_mem_length {w : Nat} (hw : 0 < w) :
    ∀ (fuel : Nat) (l : List Nat), l.length ≤ fuel → w ∣ l.length →
      ∀ c ∈ chunksOfAux fuel w l, c.length = w := by
  intro fuel
  induction fuel with
  | zero =>
    intro l hl _ c hc
    have : l = [] := List.eq_nil_of_length_eq_zero (Nat.le_zero.mp hl)
    subst this
    simp [chunksOfAux] at hc
  | succ fuel ih =>
    intro l hl hdvd c hc
    cases l with
    | nil => simp [chunksOfAux] at hc
    | cons a rest =>
      have hlen : 0 < (a :: rest).length := by simp
      have hwle : w ≤ (a :: rest).length := Nat.le_of_dvd hlen hdvd
      have hc' : c ∈ (a :: rest).take w :: chunksOfAux fuel w ((a :: rest).drop w) := hc
      rcases List.mem_cons.mp hc' with rfl | hc''
      · rw [List.length_take]
        omega
      · refine ih _ ?_ ?_ c hc''
        · rw [List.length_drop]
          simp only [List.length_cons] at hl ⊢
          omega
        · rw [List.length_drop]
          exact Nat.dvd_sub' hdvd dvd_rfl

theorem chunksOf_flatten {w : Nat} (hw : 0 < w) (l : List Nat) :
    (chunksOf w l).flatten = l :=
  chunksOfAux_flatten hw _ l (Nat.le_succ _)

theorem chunksOf_length {w : Nat} (hw : 0 < w) {l : List Nat}
    (hdvd : w ∣ l.length) : (chunksOf w l).length = l.length / w :=
  chunksOfAux_length hw _ l (Nat.le_succ _) hdvd

theorem chunksOf_mem_length {w : Nat} (hw : 0 < w) {l : List Nat}
    (hdvd : w ∣ l.length) : ∀ c ∈ chunksOf w l, c.length = w :=
  chunksOfAux_mem_length hw _ l (Nat.le_succ _) hdvd

theorem flatten_length_const {L : List (List Nat)} {k : Nat}
    (h : ∀ c ∈ L, c.length = k) : L.flatten.length = k * L.length := by
  induction L with
  | nil => simp
  | cons c rest ih =>
    rw [List.flatten_cons, List.length_append, h c (List.mem_cons_self c rest),
      ih (fun d hd => h d (List.mem_cons_of_mem c hd))]
    simp [List.length_cons]
    ring

theorem serializeF32_length (v : List Nat) :
    (serializeF32 v).length = 4 * v.length := by
  rw [serializeF32, flatten_length_const (k := 4)]
  · simp
  · intro c hc
    rcases List.mem_map.mp hc with ⟨x, _, rfl⟩
    rfl

/-! ## Shared search-filter lemmas -/

theorem survivors_excludes {qlen : Nat} {entries : List MemEntry} {e : MemEntry}
    (h : (decode64 e).map List.length ≠ some qlen) :
    ∀ p ∈ survivors qlen entries, p.1 ≠ e := by
  intro p hp hpe
  rcases List.mem_filterMap.mp hp with ⟨a, _, ha⟩
  rcases hd : decode64 a with _ | v
  · rw [hd, Option.none_bind] at ha
    exact Option.noConfusion ha
  · rw [hd, Option.some_bind] at ha
    by_cases hv : v.length = qlen
    · rw [if_pos hv] at ha
      have hpa : p = (a, v) := (Option.some.injEq _ _).mp ha.symm
      have hae : a = e := by rw [← hpe, hpa]
      rw [hae] at hd
      rw [hd] at h
      exact h (by simp [hv])
    · rw [if_neg hv] at ha
      exact Option.noConfusion ha

theorem search_noMatches_of_all_mismatch {simF : List (List Nat) → ℚ}
    {qlen page : Nat} {entries : List MemEntry}
    (h : ∀ e ∈ entries, (decode64 e).map List.length ≠ some qlen) :
    search simF (some qlen) page entries = .noMatches := by
  have hsurv : survivors qlen entries = [] := by
    rw [survivors, List.filterMap_eq_nil_iff]
    intro a ha
    rcases hd : decode64 a with _ | v
    · rw [Option.none_bind]
    · have := h a ha
      rw [hd] at this
      have hv : ¬v.length = qlen := fun hveq => this (by simp [hveq])
      rw [Option.some_bind, if_neg hv]
  rw [search, hsurv]
  rfl

/-! ## C2: dimension-safe search -/

/-- C2: the search route discards every entry whose decoded embedding
length differs from the query embedding's length (decode failures are
caught and the entry skipped, never an error); when no entries survive
the filter it renders the explicit "no matches" page; in particular
entries stored as 128-component float32 vectors are all excluded against
a query embedding of length 256. -/
theorem search_dimension_safe :
    (∀ (qlen : Nat) (entries : List MemEntry) (e : MemEntry),
      (decode64 e).map List.length ≠ some qlen →
      ∀ p ∈ survivors qlen entries, p.1 ≠ e) ∧
    (∀ (simF : List (List Nat) → ℚ) (qlen page : Nat) (entries : List MemEntry),
      (∀ e ∈ entries, (decode64 e).map List.length ≠ some qlen) →
      search simF (some qlen) page entries = .noMatches) ∧
    (∀ (simF : List (List Nat) → ℚ) (page : Nat) (entries : List MemEntry),
      (∀ e ∈ entries, e.emb.length = 128 ∧ ∀ c ∈ e.emb, c.length = 4) →
      search simF (some 256) page entries = .noMatches) := by
  refine ⟨fun _ _ _ h => survivors_excludes h,
    fun _ _ _ _ h => search_noMatches_of_all_mismatch h, ?_⟩
  intro simF page entries h
  apply search_noMatches_of_all_mismatch
  intro e he
  rcases h e he with ⟨h128, h4⟩
  have hflat : e.emb.flatten.length = 4 * 128 := by
    rw [flatten_length_const h4, h128]
  have hdec : decode64 e = some (chunksOf 8 e.emb.flatten) := by
    rw [decode64, frombuffer, if_pos (by rw [hflat])]
  have hlen : (chunksOf 8 e.emb.flatten).length = 64 := by
    rw [chunksOf_length (by norm_num) (by rw [hflat]; norm_num), hflat]
  simp [hdec, hlen]

/-- Concrete instance of C2: one entry stored as a 128-component float32
vector against a query embedding of length 256 yields the "no matches"
page, not an error. -/
theorem search_dimension_safe_witness :
    search (fun _ => 0) (some 256) 1
      [⟨1, [], [], [], 10, List.replicate 128 [0, 0, 0, 0]⟩] = .noMatches :=
  search_dimension_safe.2.2 (fun _ => 0) 1
    [⟨1, [], [], [], 10, List.replicate 128 [0, 0, 0, 0]⟩]
    (by
      intro e he
      simp only [List.mem_singleton] at he
      subst he
      refine ⟨by simp, ?_⟩
      intro c hc
      rcases List.eq_of_mem_replicate hc with rfl
      rfl)

/-! ## C3: insert-then-search width mismatch -/

/-- The number of components of the final embedding vector that
`insert_entry` serialises. -/
def insertedDim (env : InsertEnv) (raw : List Char) (embedding : List Nat) : Nat :=
  (insertStoredEmbedding env raw embedding).length

/-- The row `insert_entry` appends for a fresh timestamp, given the
autoincrement id `nid` it receives. -/
def insertedRow (env : InsertEnv) (raw : List Char) (ts : Nat)
    (embedding : List Nat) (app title : List Char) (nid : Nat) : DbRow :=
  ⟨nid, app, title, insertFinalText env raw, ts,
    serializeF32 (insertStoredEmbedding env raw embedding)⟩

/-- That row as `get_all_entries` decodes it (float32 chunks). -/
def insertedEntry (env : InsertEnv) (raw : List Char) (ts : Nat)
    (embedding : List Nat) (app title : List Char) (nid : Nat) : MemEntry :=
  ⟨nid, app, title, insertFinalText env raw, ts,
    chunksOf 4 (serializeF32 (insertStoredEmbedding env raw embedding))⟩

/-- C3: `insert_entry` writes `4·n` bytes of float32 data for an
`n`-component final embedding; `get_all_entries` decodes them back to
`n` components; the search route reinterprets the same bytes as float64,
seeing `n/2` components when `n` is even and skipping the entry when `n`
is odd; hence for `n > 0` the equal-length dimension filter never
accepts the entry against a query embedding of dimension `n`, and the
entry is never part of a search result list. -/
theorem insert_search_width_mismatch (env : InsertEnv) (raw : List Char)
    (ts : Nat) (embedding : List Nat) (app title : List Char)
    (t : EntriesTable) (hfresh : hasTimestamp t ts = false)
    (hn : 0 < insertedDim env raw embedding) :
    ((insert_entry env raw ts embedding app title t).1.rows =
      t.rows ++ [insertedRow env raw ts embedding app title t.nextId]) ∧
    ((insertedRow env raw ts embedding app title t.nextId).embedding.length =
      4 * insertedDim env raw embedding) ∧
    (decodeRow (insertedRow env raw ts embedding app title t.nextId) =
      some (insertedEntry env raw ts embedding app title t.nextId)) ∧
    ((insertedEntry env raw ts embedding app title t.nextId).emb.length =
      insertedDim env raw embedding) ∧
    ((decode64 (insertedEntry env raw ts embedding app title t.nextId)).map
        List.length =
      if insertedDim env raw embedding % 2 = 0
        then some (insertedDim env raw embedding / 2) else none) ∧
    (∀ entries, ∀ p ∈ survivors (insertedDim env raw embedding) entries,
      p.1 ≠ insertedEntry env raw ts embedding app title t.nextId) ∧
    (∀ (simF : List (List Nat) → ℚ) (page : Nat) (entries : List MemEntry)
        (l : List MemEntry) (tp : Nat),
      search simF (some (insertedDim env raw embedding)) page entries =
        .results l tp →
      insertedEntry env raw ts embedding app title t.nextId ∉ l) := by
  set n := insertedDim env raw embedding with hn_def
  set blob := serializeF32 (insertStoredEmbedding env raw embedding) with hblob
  have hblen : blob.length = 4 * n := serializeF32_length _
  have hrows : (insert_entry env raw ts embedding app title t).1.rows =
      t.rows ++ [insertedRow env raw ts embedding app title t.nextId] := by
    rw [insert_entry, sqliteInsertOrIgnore, if_neg (by simp [hfresh])]
    rfl
  have hdecrow : decodeRow (insertedRow env raw ts embedding app title t.nextId) =
      some (insertedEntry env raw ts embedding app title t.nextId) := by
    rw [decodeRow, insertedRow, frombuffer]
    rw [show (⟨t.nextId, app, title, insertFinalText env raw, ts,
      serializeF32 (insertStoredEmbedding env raw embedding)⟩ : DbRow).embedding
        = blob from rfl]
    rw [if_pos (by rw [hblen]; omega)]
    rfl
  have hemblen : (insertedEntry env raw ts embedding app title t.nextId).emb.length
      = n := by
    show (chunksOf 4 blob).length = n
    rw [chunksOf_length (by norm_num) (by rw [hblen]; exact ⟨n, rfl⟩), hblen]
    omega
  have hflatten : (insertedEntry env raw ts embedding app title t.nextId).emb.flatten
      = blob := by
    show (chunksOf 4 blob).flatten = blob
    exact chunksOf_flatten (by norm_num) blob
  have hdec64 : (decode64 (insertedEntry env raw ts embedding app title t.nextId)).map
      List.length = if n % 2 = 0 then some (n / 2) else none := by
    rw [decode64, hflatten, frombuffer]
    by_cases hpar : n % 2 = 0
    · rw [if_pos (by rw [hblen]; omega), if_pos hpar]
      simp only [Option.map]
      rw [chunksOf_length (by norm_num) (by rw [hblen]; omega), hblen]
      congr 1
      omega
    · rw [if_neg (by rw [hblen]; omega), if_neg hpar]
      rfl
  have hmis : (decode64 (insertedEntry env raw ts embedding app title t.nextId)).map
      List.length ≠ some n := by
    rw [hdec64]
    by_cases hpar : n % 2 = 0
    · rw [if_pos hpar]
      intro hcontra
      have : n / 2 = n := by injection hcontra
      omega
    · rw [if_neg hpar]
      exact fun hcontra => Option.noConfusion hcontra
  have hexcl : ∀ entries, ∀ p ∈ survivors n entries,
      p.1 ≠ insertedEntry env raw ts embedding app title t.nextId :=
    fun _ => survivors_excludes hmis
  refine ⟨hrows, serializeF32_length _, hdecrow, hemblen, hdec64, hexcl, ?_⟩
  intro simF page entries l tp hs he
  rcases hsurv : survivors n entries with _ | ⟨p0, rest⟩
  · rw [search, hsurv] at hs
    simp at hs
  · rw [search, hsurv] at hs
    simp only [List.isEmpty_cons, if_false, Bool.false_eq_true] at hs
    rcases SearchOutcome.results.injEq .. ▸ hs with ⟨hl, _⟩
    rw [← hl] at he
    have he' := List.mem_of_mem_drop (List.mem_of_mem_take he)
    rcases List.mem_map.mp he' with ⟨q, hq, hqe⟩
    have hq' : q ∈ (p0 :: rest).map (fun p => (p.1, simF p.2)) := by
      rw [sortScored] at hq
      exact (List.mem_insertionSort scoreRel).mp hq
    rcases List.mem_map.mp hq' with ⟨p, hp, hpq⟩
    have : p.1 = insertedEntry env raw ts embedding app title t.nextId := by
      rw [← hqe, ← hpq]
    exact hexcl entries p (hsurv ▸ hp) this

/-- Concrete instance of C3: a freshly inserted 2-component embedding is
decoded by the search route as a single float64 component, not two. -/
theorem insert_search_width_mismatch_witness :
    (decode64 (insertedEntry ⟨none, fun _ => [1, 2]⟩ "ok go".toList 7 []
        "a".toList "b".toList 1)).map List.length =
      if insertedDim ⟨none, fun _ => [1, 2]⟩ "ok go".toList [] % 2 = 0
        then some (insertedDim ⟨none, fun _ => [1, 2]⟩ "ok go".toList [] / 2)
        else none :=
  (insert_search_width_mismatch ⟨none, fun _ => [1, 2]⟩ "ok go".toList 7 []
    "a".toList "b".toList ⟨[], 1⟩ (by decide) (by decide)).2.2.2.2.1

/-! ## C4: similarity ranking order -/

/-- A minimal entry whose stored float32 vector has two components
(bytes `[b,0,0,0,0,0,0,0]`), so the search route decodes it as a single
float64 component. -/
def c4Entry (nid ts b : Nat) : MemEntry :=
  ⟨nid, [], [], [], ts, [[b, 0, 0, 0], [0, 0, 0, 0]]⟩

/-- The rational `0.9` in reduced constructor form (kernel-reducible). -/
def ratNineTenths : ℚ := ⟨9, 10, by decide, by decide⟩

/-- The rational `0.5` in reduced constructor form (kernel-reducible). -/
def ratOneHalf : ℚ := ⟨1, 2, by decide, by decide⟩

/-- A similarity function realising the scores `[0.9, 0.9, 0.5]` of the
spec's ranking example on the three decoded vectors. -/
def c4SimF (v : List (List Nat)) : ℚ :=
  if v = [[1, 0, 0, 0, 0, 0, 0, 0]] then ratNineTenths
  else if v = [[2, 0, 0, 0, 0, 0, 0, 0]] then ratNineTenths
  else ratOneHalf

/-- C4: search results are sorted descending by `(similarity,
timestamp)` — the sorted scored list satisfies the descending
lexicographic relation and is a permutation of its input — and on three
surviving entries with similarities `[0.9, 0.9, 0.5]` and timestamps
`[100, 200, 50]` the returned order is `[200, 100, 50]`. -/
theorem search_ranking_order :
    (∀ scored : List (MemEntry × ℚ),
      List.Sorted scoreRel (sortScored scored) ∧
      List.Perm (sortScored scored) scored) ∧
    (ratNineTenths = 9 / 10 ∧ ratOneHalf = 1 / 2) ∧
    search c4SimF (some 1) 1
        [c4Entry 1 100 1, c4Entry 2 200 2, c4Entry 3 50 3] =
      .results [c4Entry 2 200 2, c4Entry 1 100 1, c4Entry 3 50 3] 1 := by
  refine ⟨fun scored => ⟨List.sorted_insertionSort scoreRel scored,
    List.perm_insertionSort scoreRel scored⟩, ⟨?_, ?_⟩, ?_⟩
  · rw [ratNineTenths, Rat.mk'_eq_divInt, Rat.divInt_eq_div]
    norm_num
  · rw [ratOneHalf, Rat.mk'_eq_divInt, Rat.divInt_eq_div]
    norm_num
  · decide

/-! ## C5: `get_all_entries` failure semantics -/

/-- The entry a well-formed row (blob length divisible by 4) decodes
to. -/
def decodedRow (row : DbRow) : MemEntry :=
  ⟨row.id, row.app, row.title, row.text, row.timestamp,
    chunksOf 4 row.embedding⟩

theorem decodeRow_eq_some {row : DbRow} (h : row.embedding.length % 4 = 0) :
    decodeRow row = some (decodedRow row) := by
  rw [decodeRow, frombuffer, if_pos h]
  rfl

theorem decodeRow_eq_none {row : DbRow} (h : row.embedding.length % 4 ≠ 0) :
    decodeRow row = none := by
  rw [decodeRow, frombuffer, if_neg h]
  rfl

theorem mapM_eq_map {α β : Type} {f : α → Option β} {g : α → β} :
    ∀ {l : List α}, (∀ x ∈ l, f x = some (g x)) → l.mapM f = some (l.map g) := by
  intro l
  induction l with
  | nil => intro _; rfl
  | cons a rest ih =>
    intro h
    rw [List.mapM_cons, h a (List.mem_cons_self a rest),
      ih (fun x hx => h x (List.mem_cons_of_mem a hx))]
    rfl

theorem mapM_eq_none {α β : Type} {f : α → Option β} {x : α} :
    ∀ {l : List α}, x ∈ l → f x = none → l.mapM f = none := by
  intro l
  induction l with
  | nil => intro hx; simp at hx
  | cons a rest ih =>
    intro hx hfx
    rcases List.mem_cons.mp hx with rfl | hx'
    · rw [List.mapM_cons, hfx]
      rfl
    · rw [List.mapM_cons]
      rcases hfa : f a with _ | b
      · rfl
      · rw [ih hx' hfx]
        rfl

/-- C5 counterexample: a single row whose embedding blob is one byte
long (not a multiple of the float32 width) makes `get_all_entries`
raise an uncaught `ValueError` instead of skipping the record — the
claim's "never raises"/"skips corrupt records" is false on the code. -/
theorem get_all_entries_raises_on_corrupt :
    get_all_entries (some [⟨1, [], [], [], 5, [0]⟩]) = .raised := by
  decide

/-- C5 (amended): `get_all_entries` returns the rows ordered by
timestamp descending; a `sqlite3.Error` is caught and yields the empty
list; a record with *empty* embedding bytes is not skipped but returned
with an empty vector; but a record whose embedding byte length is not a
multiple of 4 raises an uncaught `ValueError` that fails the whole
read. -/
theorem get_all_entries_amended :
    (get_all_entries none = .ok []) ∧
    (∀ rows : List DbRow, (∀ r ∈ rows, r.embedding.length % 4 = 0) →
      get_all_entries (some rows) = .ok ((sortRowsDesc rows).map decodedRow) ∧
      ((sortRowsDesc rows).map decodedRow).length = rows.length ∧
      List.Perm ((sortRowsDesc rows).map decodedRow) (rows.map decodedRow) ∧
      ((sortRowsDesc rows).map decodedRow).Pairwise
        (fun a b => b.timestamp ≤ a.timestamp) ∧
      (∀ r ∈ rows, decodedRow r ∈ (sortRowsDesc rows).map decodedRow)) ∧
    (∀ row : DbRow, row.embedding = [] → (decodedRow row).emb = []) ∧
    (∀ (rows : List DbRow) (r : DbRow), r ∈ rows →
      r.embedding.length % 4 ≠ 0 → get_all_entries (some rows) = .raised) := by
  refine ⟨rfl, ?_, ?_, ?_⟩
  · intro rows h
    have hall : ∀ r ∈ sortRowsDesc rows, decodeRow r = some (decodedRow r) := by
      intro r hr
      exact decodeRow_eq_some
        (h r ((List.mem_insertionSort rowTsDesc).mp hr))
    have hmapM : (sortRowsDesc rows).mapM decodeRow =
        some ((sortRowsDesc rows).map decodedRow) := mapM_eq_map hall
    refine ⟨?_, ?_, ?_, ?_, ?_⟩
    · rw [get_all_entries, hmapM]
    · rw [List.length_map, sortRowsDesc,
        (List.perm_insertionSort rowTsDesc rows).length_eq]
    · exact ((List.perm_insertionSort rowTsDesc rows).map decodedRow)
    · have hsorted : List.Sorted rowTsDesc (sortRowsDesc rows) :=
        List.sorted_insertionSort rowTsDesc rows
      rw [List.pairwise_map]
      exact hsorted.imp (fun {a b} hab => hab)
    · intro r hr
      exact List.mem_map_of_mem decodedRow
        ((List.mem_insertionSort rowTsDesc).mpr hr)
  · intro row hrow
    show chunksOf 4 row.embedding = []
    rw [hrow]
    rfl
  · intro rows r hr hbad
    have hmem : r ∈ sortRowsDesc rows := by
      rw [sortRowsDesc]
      exact (List.mem_insertionSort rowTsDesc).mpr hr
    rw [get_all_entries, mapM_eq_none hmem (decodeRow_eq_none hbad)]

/-- Concrete instance of C5 (amended): a table with an empty-blob row
and a well-formed row is read in full, ordered by timestamp
descending, the empty-blob row yielding an empty vector. -/
theorem get_all_entries_amended_witness :
    get_all_entries (some [⟨1, [], [], [], 5, []⟩, ⟨2, [], [], [], 9, [0, 0, 0, 0]⟩])
        = .ok ((sortRowsDesc [⟨1, [], [], [], 5, []⟩,
            ⟨2, [], [], [], 9, [0, 0, 0, 0]⟩]).map decodedRow) ∧
    (decodedRow ⟨1, [], [], [], 5, []⟩).emb = [] :=
  ⟨(get_all_entries_amended.2.1 [⟨1, [], [], [], 5, []⟩,
      ⟨2, [], [], [], 9, [0, 0, 0, 0]⟩] (by decide)).1,
   get_all_entries_amended.2.2.1 ⟨1, [], [], [], 5, []⟩ rfl⟩

/-! ## C6: dry-run reprocessing and the cache -/

/-- A stored entry whose text already looks refined (contains the
indicator phrase "enhanced description:"). -/
def c6RefinedRow : RepRow :=
  ⟨1, "Enhanced description: the user is reading docs".toList, 100,
    "App".toList, "T".toList⟩

/-- A stored entry with plain OCR text (no indicator phrase). -/
def c6PlainRow : RepRow :=
  ⟨2, "some raw ocr words".toList, 90, "App".toList, "T".toList⟩

/-- C6 evaluated at the failing input: a dry run (`dry_run=True`,
`force=False`, reachable Ollama, initially empty cache and cache file)
over a database holding one already-refined-looking entry and one plain
entry leaves the `entries` table unchanged, but adds id 1 to the
in-memory ProcessingCache during candidate filtering and rewrites the
persisted cache file with `{1}` at end-of-run — contradicting the claim
that "no entry id is added to the cache and the cache file is not
rewritten with new contents". -/
theorem dry_run_writes_cache :
    run_processing_dry true none false ⟨[c6RefinedRow, c6PlainRow], [], []⟩ =
      ⟨[c6RefinedRow, c6PlainRow], [1], [1]⟩ := by
  decide

/-! ## C10: live-capture asset naming vs the vision lookup -/

theorem digitChar_ne_underscore (d : Nat) : digitChar d ≠ '_' := by
  unfold digitChar
  have hm : d % 10 < 10 := Nat.mod_lt _ (by norm_num)
  set m := d % 10 with hmdef
  interval_cases m <;> decide

theorem natDigitsAux_digits :
    ∀ (fuel n : Nat), ∀ c ∈ natDigitsAux fuel n, ∃ d, c = digitChar d := by
  intro fuel
  induction fuel with
  | zero =>
    intro n c hc
    simp [natDigitsAux] at hc
  | succ fuel ih =>
    intro n c hc
    simp only [natDigitsAux] at hc
    by_cases h : n < 10
    · rw [if_pos h] at hc
      rcases List.mem_singleton.mp hc with rfl
      exact ⟨n, rfl⟩
    · rw [if_neg h] at hc
      rcases List.mem_append.mp hc with h1 | h2
      · exact ih _ c h1
      · rcases List.mem_singleton.mp h2 with rfl
        exact ⟨n % 10, rfl⟩

theorem underscore_not_in_natDigits (n : Nat) : '_' ∉ natDigits n := by
  intro h
  rcases natDigitsAux_digits _ _ _ h with ⟨d, hd⟩
  exact digitChar_ne_underscore d hd.symm

theorem underscore_in_liveName (ts i : Nat) :
    '_' ∈ liveScreenshotName ts i := by
  simp [liveScreenshotName]

theorem probe_ne_liveName {ts : Nat} :
    ∀ nm ∈ visionProbeNames ts, ∀ ts' i : Nat,
      nm ≠ liveScreenshotName ts' i := by
  intro nm hnm ts' i heq
  have hin : '_' ∈ nm := heq ▸ underscore_in_liveName ts' i
  have hnotin : '_' ∉ nm := by
    simp only [visionProbeNames, List.mem_cons, List.mem_singleton] at hnm
    rcases hnm with rfl | rfl | rfl | (rfl | h)
    all_goals
      first
      | (intro hmem
         rcases List.mem_append.mp hmem with h1 | h2
         · exact underscore_not_in_natDigits ts h1
         · revert h2
           decide)
      | simp at *
  exact hnotin hin

/-- C10: when the screenshot directory holds only files saved by the
live capture loop (names `"{timestamp}_{i}.webp"`), the vision lookup of
`insert_entry` — which probes only the un-suffixed names
`"{timestamp}.{webp,jpg,png,jpeg}"` — finds nothing and returns `None`,
so the text `insert_entry` stores for a live capture is always the
cleaned-OCR fallback. -/
theorem live_capture_vision_fallback (fs : List (List Char)) (ts : Nat)
    (svc : Option (List Char)) (g : List Char → List Nat)
    (hfs : ∀ nm ∈ fs, ∃ ts' i : Nat, nm = liveScreenshotName ts' i) :
    get_vision_description fs ts svc = none ∧
    (∀ raw : List Char,
      insertFinalText ⟨get_vision_description fs ts svc, g⟩ raw =
        clean_ocr_text raw) ∧
    (∀ (raw : List Char) (embedding : List Nat) (app title : List Char)
        (t : EntriesTable), hasTimestamp t ts = false →
      (insert_entry ⟨get_vision_description fs ts svc, g⟩ raw ts embedding
          app title t).1.rows =
        t.rows ++ [insertedRow ⟨get_vision_description fs ts svc, g⟩ raw ts
          embedding app title t.nextId] ∧
      (insertedRow ⟨get_vision_description fs ts svc, g⟩ raw ts embedding
        app title t.nextId).text = clean_ocr_text raw) := by
  have hvision : get_vision_description fs ts svc = none := by
    rw [get_vision_description, if_neg]
    intro hany
    rcases List.any_eq_true.mp hany with ⟨nm, hnm, hcont⟩
    have hnmfs : nm ∈ fs := List.mem_of_elem_eq_true hcont
    rcases hfs nm hnmfs with ⟨ts', i, rfl⟩
    exact probe_ne_liveName _ hnm ts' i rfl
  have htext : ∀ raw : List Char,
      insertFinalText ⟨get_vision_description fs ts svc, g⟩ raw =
        clean_ocr_text raw := by
    intro raw
    rw [hvision, insertFinalText]
  refine ⟨hvision, htext, ?_⟩
  intro raw embedding app title t hfresh
  constructor
  · rw [insert_entry, sqliteInsertOrIgnore, if_neg (by simp [hfresh])]
    rfl
  · exact htext raw

/-- Concrete instance of C10: a directory holding only the live-capture
file `"17_0.webp"` defeats the vision probe for timestamp 17 and the
stored text falls back to the cleaned OCR text. -/
theorem live_capture_vision_fallback_witness :
    get_vision_description [liveScreenshotName 17 0] 17
        (some "a screenshot".toList) = none ∧
    insertFinalText ⟨get_vision_description [liveScreenshotName 17 0] 17
        (some "a screenshot".toList), fun _ => []⟩ "ok go".toList =
      clean_ocr_text "ok go".toList :=
  ⟨(live_capture_vision_fallback [liveScreenshotName 17 0] 17
      (some "a screenshot".toList) (fun _ => [])
      (fun _ hnm => ⟨17, 0, List.mem_singleton.mp hnm⟩)).1,
   (live_capture_vision_fallback [liveScreenshotName 17 0] 17
      (some "a screenshot".toList) (fun _ => [])
      (fun _ hnm => ⟨17, 0, List.mem_singleton.mp hnm⟩)).2.1 "ok go".toList⟩

/-! ## C7: OCR text cleaning -/

theorem splitWsAux_sound :
    ∀ (s cur : List Char), (∀ c ∈ cur, isSpaceChar c = false) →
      ∀ w ∈ splitWsAux cur s, w ≠ [] ∧ ∀ c ∈ w, isSpaceChar c = false := by
  intro s
  induction s with
  | nil =>
    intro cur hcur w hw
    simp only [splitWsAux] at hw
    by_cases hc : cur.isEmpty
    · rw [if_pos hc] at hw
      simp at hw
    · rw [if_neg hc] at hw
      rcases List.mem_singleton.mp hw with rfl
      refine ⟨?_, ?_⟩
      · simp only [ne_eq, List.reverse_eq_nil_iff]
        intro h
        rw [h] at hc
        exact hc rfl
      · intro c hc'
        exact hcur c (List.mem_reverse.mp hc')
  | cons a rest ih =>
    intro cur hcur w hw
    simp only [splitWsAux] at hw
    by_cases ha : isSpaceChar a = true
    · rw [if_pos ha] at hw
      by_cases hc : cur.isEmpty
      · rw [if_pos hc] at hw
        exact ih [] (by simp) w hw
      · rw [if_neg hc] at hw
        rcases List.mem_cons.mp hw with rfl | hw'
        · refine ⟨?_, ?_⟩
          · simp only [ne_eq, List.reverse_eq_nil_iff]
            intro h
            rw [h] at hc
            exact hc rfl
          · intro c hc'
            exact hcur c (List.mem_reverse.mp hc')
        · exact ih [] (by simp) w hw'
    · rw [if_neg ha] at hw
      refine ih (a :: cur) ?_ w hw
      intro c hc'
      rcases List.mem_cons.mp hc' with rfl | hc''
      · exact Bool.not_eq_true _ ▸ ha
      · exact hcur c hc''

theorem splitWsAux_word :
    ∀ (w cur rest : List Char), (∀ c ∈ w, isSpaceChar c = false) →
      splitWsAux cur (w ++ rest) = splitWsAux (w.reverse ++ cur) rest := by
  intro w
  induction w with
  | nil =>
    intro cur rest _
    simp
  | cons a w' ih =>
    intro cur rest hw
    have ha : isSpaceChar a = false := hw a (List.mem_cons_self a w')
    show splitWsAux cur (a :: (w' ++ rest)) = _
    simp only [splitWsAux]
    rw [if_neg (by simp [ha])]
    rw [ih (a :: cur) rest (fun c hc => hw c (List.mem_cons_of_mem a hc))]
    congr 1
    simp

theorem splitWs_intercalate :
    ∀ ws : List (List Char),
      (∀ w ∈ ws, w ≠ [] ∧ ∀ c ∈ w, isSpaceChar c = false) →
      splitWs (List.intercalate [' '] ws) = ws := by
  intro ws
  induction ws with
  | nil =>
    intro _
    simp [List.intercalate, splitWs, splitWsAux]
  | cons w ws' ih =>
    intro h
    rcases h w (List.mem_cons_self w ws') with ⟨hw_ne, hw_sp⟩
    cases ws' with
    | nil =>
      have hone : List.intercalate [' '] [w] = w := by simp [List.intercalate]
      rw [hone, splitWs, ← List.append_nil w, splitWsAux_word w [] [] hw_sp]
      simp only [splitWsAux, List.append_nil]
      rw [if_neg (by simp [hw_ne])]
      simp
    | cons w2 ws'' =>
      have hstep : List.intercalate [' '] (w :: w2 :: ws'') =
          w ++ ' ' :: List.intercalate [' '] (w2 :: ws'') := by
        simp [List.intercalate, List.intersperse]
      rw [hstep, splitWs, splitWsAux_word w [] _ hw_sp]
      simp only [splitWsAux, List.append_nil]
      rw [if_pos (by decide), if_neg (by simp [hw_ne])]
      rw [List.reverse_reverse]
      congr 1
      exact ih (fun x hx => h x (List.mem_cons_of_mem w hx))

theorem splitWsAux_all_space :
    ∀ (sp : List Char), (∀ c ∈ sp, isSpaceChar c = true) →
      ∀ cur, splitWsAux cur sp = if cur.isEmpty then [] else [cur.reverse] := by
  intro sp
  induction sp with
  | nil =>
    intro _ cur
    rfl
  | cons a sp' ih =>
    intro hsp cur
    have ha := hsp a (List.mem_cons_self a sp')
    have hsp' : ∀ c ∈ sp', isSpaceChar c = true :=
      fun c hc => hsp c (List.mem_cons_of_mem a hc)
    simp only [splitWsAux]
    rw [if_pos ha]
    by_cases hc : cur.isEmpty
    · rw [if_pos hc, if_pos hc, ih hsp' []]
      rfl
    · rw [if_neg hc, if_neg hc, ih hsp' []]
      rfl

theorem splitWsAux_append_space :
    ∀ (t sp : List Char), (∀ c ∈ sp, isSpaceChar c = true) →
      ∀ cur, splitWsAux cur (t ++ sp) = splitWsAux cur t := by
  intro t
  induction t with
  | nil =>
    intro sp hsp cur
    rw [List.nil_append, splitWsAux_all_space sp hsp cur]
    rfl
  | cons a t' ih =>
    intro sp hsp cur
    show splitWsAux cur (a :: (t' ++ sp)) = splitWsAux cur (a :: t')
    simp only [splitWsAux]
    by_cases ha : isSpaceChar a = true
    · rw [if_pos ha, if_pos ha]
      by_cases hc : cur.isEmpty
      · rw [if_pos hc, if_pos hc, ih sp hsp []]
      · rw [if_neg hc, if_neg hc, ih sp hsp []]
    · rw [if_neg ha, if_neg ha, ih sp hsp (a :: cur)]

theorem splitWs_dropWhile_front :
    ∀ s : List Char, splitWs (s.dropWhile isSpaceChar) = splitWs s := by
  intro s
  induction s with
  | nil => rfl
  | cons a rest ih =>
    by_cases ha : isSpaceChar a = true
    · rw [List.dropWhile_cons, if_pos ha, ih]
      show splitWs rest = splitWsAux [] (a :: rest)
      simp only [splitWs, splitWsAux]
      rw [if_pos ha, if_pos (by decide)]
    · rw [List.dropWhile_cons, if_neg ha]

theorem splitWs_stripWs (s : List Char) : splitWs (stripWs s) = splitWs s := by
  set u := s.dropWhile isSpaceChar with hu
  have hjoin : stripWs s ++ (u.reverse.takeWhile isSpaceChar).reverse = u := by
    rw [stripWs, ← hu, ← List.reverse_append, List.takeWhile_append_dropWhile,
      List.reverse_reverse]
  have hsp : ∀ c ∈ (u.reverse.takeWhile isSpaceChar).reverse,
      isSpaceChar c = true := by
    intro c hc
    exact List.mem_takeWhile_imp (List.mem_reverse.mp hc)
  calc splitWs (stripWs s)
      = splitWs (stripWs s ++ (u.reverse.takeWhile isSpaceChar).reverse) :=
        (splitWsAux_append_space _ _ hsp []).symm
    _ = splitWs u := by rw [hjoin]
    _ = splitWs s := by rw [hu]; exact splitWs_dropWhile_front s

theorem cleanCore_tokens (raw : List Char) :
    splitWs (cleanCore raw) =
      (splitWs (collapseRuns (collapseSpaces (stripArtifacts raw)))).filter
        keepWord := by
  rw [cleanCore, splitWs_stripWs]
  apply splitWs_intercalate
  intro w hw
  exact splitWsAux_sound _ [] (by simp) w (List.mem_of_mem_filter hw)

/-- The input of the C7 counterexample: the token `"abc"` followed by
670 copies of `" ab"`; all 671 tokens pass the word filter, the joined
text is 2013 characters long, and the 2000-character truncation cuts
the token starting at position 1999 down to the single character
`"a"`. -/
def c7Bad : List Char := "abc".toList ++ (List.replicate 670 " ab".toList).flatten

set_option maxRecDepth 200000 in
/-- C7 counterexample: the output of `clean_ocr_text` on `c7Bad`
contains a whitespace-separated token shorter than 2 characters (the
final token, cut by the 2000-character truncation), so the claim that
the output contains *only* tokens of 2 to 25 characters is false. -/
theorem clean_ocr_truncation_splits_token :
    (splitWs (clean_ocr_text c7Bad)).any (fun w => decide (w.length < 2)) = true := by
  decide

/-- C7 (amended): every whitespace-separated token of the cleaned text
*before* the final truncation is 2 to 25 characters long, contains an
alphabetic character, and is not a purely numeric token longer than 10
digits (and runs of ≥ 4 repeated word characters were collapsed to 2
before tokenisation, by construction of the pipeline); the live-capture
version then truncates the joined result to at most 2000 characters and
the bulk-reprocessing version to at most 1000, which may cut the final
token; `clean_ocr_text("aaaa!!1111111111111 ok go")` evaluates to
`"aa!!11 ok go"`. -/
theorem clean_ocr_text_amended :
    (∀ raw w : List Char, w ∈ splitWs (cleanCore raw) →
      2 ≤ w.length ∧ w.length ≤ 25 ∧ w.any Char.isAlpha = true ∧
        ¬(pyIsDigit w = true ∧ 10 < w.length)) ∧
    (∀ raw : List Char, clean_ocr_text raw =
      if raw.isEmpty then [] else (cleanCore raw).take 2000) ∧
    (∀ raw : List Char, clean_ocr_text_bulk raw =
      if raw.isEmpty then [] else (cleanCore raw).take 1000) ∧
    (∀ raw : List Char, (clean_ocr_text raw).length ≤ 2000) ∧
    (∀ raw : List Char, (clean_ocr_text_bulk raw).length ≤ 1000) ∧
    clean_ocr_text ("aaaa!!1111111111111 ok go".toList) = "aa!!11 ok go".toList := by
  refine ⟨?_, fun _ => rfl, fun _ => rfl, ?_, ?_, by decide⟩
  · intro raw w hw
    rw [cleanCore_tokens] at hw
    have hk := List.of_mem_filter hw
    simp only [keepWord, Bool.and_eq_true, Bool.not_eq_true', Bool.or_eq_false_iff,
      decide_eq_false_iff_not, Bool.and_eq_false_iff, decide_eq_true_eq] at hk
    refine ⟨by omega, by omega, hk.2, ?_⟩
    rintro ⟨hdig, hlen⟩
    rcases hk.1.2 with h | h
    · rw [hdig] at h
      exact Bool.false_ne_true h.symm
    · exact h hlen
  · intro raw
    rw [clean_ocr_text]
    by_cases h : raw.isEmpty
    · rw [if_pos h]
      simp
    · rw [if_neg h]
      exact List.length_take_le _ _
  · intro raw
    rw [clean_ocr_text_bulk]
    by_cases h : raw.isEmpty
    · rw [if_pos h]
      simp
    · rw [if_neg h]
      exact List.length_take_le _ _

/-- Concrete instance of C7 (amended): the token `"aa!!11"` of the
cleaned example text satisfies all the word-filter constraints. -/
theorem clean_ocr_text_amended_witness :
    2 ≤ ("aa!!11".toList).length ∧ ("aa!!11".toList).length ≤ 25 ∧
      ("aa!!11".toList).any Char.isAlpha = true ∧
      ¬(pyIsDigit ("aa!!11".toList) = true ∧ 10 < ("aa!!11".toList).length) :=
  clean_ocr_text_amended.1 ("aaaa!!1111111111111 ok go".toList) ("aa!!11".toList)
    (by decide)

end EvolRecall
